import Mathlib

/-!
Verification of the ark scheduler's tensor layout model against its
natural-language specification.

The definitions below are a shallow embedding of the C++ sources:
`Tensor::Tensor`, `Tensor::update_pads`, `Tensor::offset`, `Tensor::size`,
`Tensor::ndims` (tensor.cc, included in src/ark/sched/sched.h) and the
scheduler interface of src/ark/sched/sched.h.  `DimType` is `long long`
in the source; signed overflow is undefined behaviour in C++, so it is
embedded as the unbounded `Int`.  Parts of the repository that the
sources do not contain (the `Dims` class, `math::pad`, `math::lcm`, the
transpose kernel, the scheduler bodies) are modelled from the
specification; each such definition carries a doc comment saying so.
-/

set_option autoImplicit false

namespace Ark

/-- DimType is long long in the source; embedded as unbounded Int (signed
overflow is UB in C++, so only non-overflowing executions are modelled). -/
abbrev DimType := Int

/-- Error kind signalled by construction-time validation (spec section 7). -/
inductive ArkError where
  | ShapeInvalid
deriving DecidableEq, Repr

/-- Modelled from the spec: the Dims class is not among the sources.  A Dims
value is an ordered integer vector of length at most 4; the distinguished
no-dim sentinel (all slots NO_DIM) is represented by the empty vector. -/
def dimsIsNoDim (d : List DimType) : Bool := d.isEmpty

/-- Number of dimensions of a Dims vector (Dims::ndims). -/
def dimsNdims (d : List DimType) : Nat := d.length

/-- Modelled from the spec: Dims::size is not among the sources.  The element
count is the product of the components; the no-dim sentinel is given the
nonzero size -1, so that the tensor constructor can distinguish the sentinel
(replaced by the shape {1}) from a vector containing a zero component
(rejected by its element-count check). -/
def dimsSize (d : List DimType) : DimType := if d.isEmpty then -1 else d.prod

/-- Modelled from the spec: the Dims constructor is not among the sources.
Spec section 4.1: construction of a shape fails with ShapeInvalid when any
component is at most 0 or ndims exceeds 4.  The in-source tensor constructor
itself builds zero-valued offs and pads vectors, so zero components must be
representable at the Dims level: the constructor-level rule is modelled as
rejecting negative components and oversize vectors, while zero components of
a shape are rejected downstream by the tensor constructor. -/
def mkDims (v : List DimType) : Except ArkError (List DimType) :=
  if 4 < v.length || v.any (fun x => decide (x < 0)) then .error .ShapeInvalid
  else .ok v

/-- Tensor (tensor.h / tensor.cc): only the layout fields used by the claims
are embedded (shape, ldims, offs, pads); buf, type, exported, imported_rank,
id and name play no role in the layout laws. -/
@[ext]
structure Tensor where
  shape : List DimType
  ldims : List DimType
  offs  : List DimType
  pads  : List DimType
deriving DecidableEq, Repr

/-- Effective shape of the constructor: the sentinel is replaced by {1}
(tensor.cc, the assume-a-single-element-constant branch). -/
def effShape (shape_ : List DimType) : List DimType :=
  if dimsIsNoDim shape_ then [1] else shape_

/-- Effective ldims of the constructor: the sentinel defaults to the shape. -/
def effLdims (shape_ ldims_ : List DimType) : List DimType :=
  if dimsIsNoDim ldims_ then effShape shape_ else ldims_

/-- Effective offs of the constructor: the sentinel defaults to all zeros. -/
def effOffs (shape_ offs_ : List DimType) : List DimType :=
  if dimsIsNoDim offs_ then List.replicate (effShape shape_).length 0 else offs_

/-- Effective pads of the constructor: the sentinel defaults to all ones. -/
def effPads (shape_ pads_ : List DimType) : List DimType :=
  if dimsIsNoDim pads_ then List.replicate (effShape shape_).length 1 else pads_

/-- The constructor loop checking that every ldims[i] is a multiple of
pads[i] (tensor.cc). -/
def checkMod (l p : List DimType) (n : Nat) : Bool :=
  (List.range n).all fun i => decide (l.getD i 0 % p.getD i 0 = 0)

/-- The constructor loop checking that offs[i] + shape[i] stays within
ldims[i] (tensor.cc). -/
def checkBounds (o s l : List DimType) (n : Nat) : Bool :=
  (List.range n).all fun i => decide (o.getD i 0 + s.getD i 0 ≤ l.getD i 0)

/-- Translation of the Tensor constructor (tensor.cc).  Each LOGERR branch
becomes an error result; the spec names this error kind ShapeInvalid.
The checks appear in the source order: zero element count, sentinel shape
replaced by {1}, per-argument ndims agreement (sentinel arguments get the
documented defaults), ldims divisible by pads, offs+shape within ldims. -/
def mkTensor (shape_ ldims_ offs_ pads_ : List DimType) : Except ArkError Tensor :=
  if dimsSize shape_ = 0 then .error .ShapeInvalid
  else if ¬ dimsIsNoDim ldims_ ∧ ldims_.length ≠ (effShape shape_).length then
    .error .ShapeInvalid
  else if ¬ dimsIsNoDim offs_ ∧ offs_.length ≠ (effShape shape_).length then
    .error .ShapeInvalid
  else if ¬ dimsIsNoDim pads_ ∧ pads_.length ≠ (effShape shape_).length then
    .error .ShapeInvalid
  else if ¬ checkMod (effLdims shape_ ldims_) (effPads shape_ pads_)
      (effShape shape_).length then
    .error .ShapeInvalid
  else if ¬ checkBounds (effOffs shape_ offs_) (effShape shape_)
      (effLdims shape_ ldims_) (effShape shape_).length then
    .error .ShapeInvalid
  else .ok ⟨effShape shape_, effLdims shape_ ldims_, effOffs shape_ offs_,
    effPads shape_ pads_⟩

/-- Number of dimensions in the tensor (Tensor::ndims, tensor.cc). -/
def Tensor.ndims (t : Tensor) : Nat := t.shape.length

/-- Number of elements in the tensor excluding padding (Tensor::size,
tensor.cc): the element count of the shape. -/
def Tensor.size (t : Tensor) : DimType := dimsSize t.shape

/-- Offset of element [i0][i1][i2][i3] in the TensorBuf (Tensor::offset,
tensor.cc), with its four branches on ndims. -/
def Tensor.offset (t : Tensor) (i0 i1 i2 i3 : DimType) : DimType :=
  let l := t.ldims
  let o := t.offs
  let ndims := t.shape.length
  if ndims = 0 then 0
  else if ndims = 1 then o.getD 0 0 + i0
  else if ndims = 2 then (o.getD 0 0 + i0) * l.getD 1 0 + o.getD 1 0 + i1
  else if ndims = 3 then
    (o.getD 0 0 + i0) * l.getD 1 0 * l.getD 2 0 + (o.getD 1 0 + i1) * l.getD 2 0 +
      o.getD 2 0 + i2
  else
    (o.getD 0 0 + i0) * l.getD 1 0 * l.getD 2 0 * l.getD 3 0 +
      (o.getD 1 0 + i1) * l.getD 2 0 * l.getD 3 0 + (o.getD 2 0 + i2) * l.getD 3 0 +
      o.getD 3 0 + i3

/-- Offset applied to an index vector: the first ndims components feed the
scalar arguments of Tensor::offset, missing ones default to 0. -/
def Tensor.offsetIdx (t : Tensor) (idx : List DimType) : DimType :=
  t.offset (idx.getD 0 0) (idx.getD 1 0) (idx.getD 2 0) (idx.getD 3 0)

/-- The offset law of the spec, written as the recursive sum
Σ over i of (offs[i] + idx[i]) · Π over j > i of ldims[j]. -/
def offsetFormula : List DimType → List DimType → List DimType → DimType
  | o :: os, _ :: ls, i :: is => (o + i) * ls.prod + offsetFormula os ls is
  | _, _, _ => 0

/-- Helper: a list of length 4 has exactly four elements. -/
theorem list_length_eq_four {α : Type} {l : List α} (h : l.length = 4) :
    ∃ a b c d, l = [a, b, c, d] := by
  match l, h with
  | [a, b, c, d], _ => exact ⟨a, b, c, d, rfl⟩

/-- Helper: the bridge between the source offset (four branches on ndims) and
the spec formula, for any constructed tensor with 1 to 4 dimensions. -/
theorem offsetIdx_eq_offsetFormula (t : Tensor) (idx : List DimType)
    (hl : t.ldims.length = t.shape.length) (ho : t.offs.length = t.shape.length)
    (hi : idx.length = t.shape.length)
    (h1 : 1 ≤ t.shape.length) (h4 : t.shape.length ≤ 4) :
    t.offsetIdx idx = offsetFormula t.offs t.ldims idx := by
  interval_cases hn : t.shape.length
  · obtain ⟨l0, hl'⟩ := List.length_eq_one.mp hl
    obtain ⟨o0, ho'⟩ := List.length_eq_one.mp ho
    obtain ⟨x0, hi'⟩ := List.length_eq_one.mp hi
    simp [Tensor.offsetIdx, Tensor.offset, offsetFormula, hn, hl', ho', hi']
  · obtain ⟨l0, l1, hl'⟩ := List.length_eq_two.mp hl
    obtain ⟨o0, o1, ho'⟩ := List.length_eq_two.mp ho
    obtain ⟨x0, x1, hi'⟩ := List.length_eq_two.mp hi
    simp [Tensor.offsetIdx, Tensor.offset, offsetFormula, hn, hl', ho', hi']
    ring
  · obtain ⟨l0, l1, l2, hl'⟩ := List.length_eq_three.mp hl
    obtain ⟨o0, o1, o2, ho'⟩ := List.length_eq_three.mp ho
    obtain ⟨x0, x1, x2, hi'⟩ := List.length_eq_three.mp hi
    simp [Tensor.offsetIdx, Tensor.offset, offsetFormula, hn, hl', ho', hi']
    ring
  · obtain ⟨l0, l1, l2, l3, hl'⟩ := list_length_eq_four hl
    obtain ⟨o0, o1, o2, o3, ho'⟩ := list_length_eq_four ho
    obtain ⟨x0, x1, x2, x3, hi'⟩ := list_length_eq_four hi
    simp [Tensor.offsetIdx, Tensor.offset, offsetFormula, hn, hl', ho', hi']
    ring

/-- C1: for every constructed tensor with ndims between 1 and 4 (the
constructor guarantees that shape, ldims and offs agree in length) and every
index vector idx of that length, Tensor::offset(idx) equals the sum over i of
(offs[i] + idx[i]) multiplied by the product of ldims[j] for j > i. -/
theorem c1_offset_matches_formula (t : Tensor) (idx : List DimType)
    (hl : t.ldims.length = t.shape.length) (ho : t.offs.length = t.shape.length)
    (hi : idx.length = t.shape.length)
    (h1 : 1 ≤ t.shape.length) (h4 : t.shape.length ≤ 4) :
    t.offsetIdx idx = offsetFormula t.offs t.ldims idx :=
  offsetIdx_eq_offsetFormula t idx hl ho hi h1 h4

/-- Witness for C1 at a concrete 3-dimensional tensor and index. -/
theorem c1_offset_matches_formula_witness :
    (let t : Tensor := ⟨[2, 3, 4], [2, 5, 6], [0, 1, 2], [1, 1, 1]⟩
     t.ldims.length = t.shape.length ∧ t.offs.length = t.shape.length ∧
     ([1, 2, 3] : List DimType).length = t.shape.length ∧
     1 ≤ t.shape.length ∧ t.shape.length ≤ 4 ∧
     t.offsetIdx [1, 2, 3] = offsetFormula t.offs t.ldims [1, 2, 3]) := by
  refine ⟨by decide, by decide, by decide, by decide, by decide, ?_⟩
  exact c1_offset_matches_formula _ _ (by decide) (by decide) (by decide)
    (by decide) (by decide)

/-- Per-axis layout invariant established by the tensor constructor:
0 ≤ offs[k], 1 ≤ shape[k] and offs[k] + shape[k] ≤ ldims[k], axis by axis. -/
inductive LayoutOk : List DimType → List DimType → List DimType → Prop where
  | nil : LayoutOk [] [] []
  | cons {s l o : DimType} {ss ls os : List DimType} :
      0 ≤ o → 1 ≤ s → o + s ≤ l → LayoutOk ss ls os →
      LayoutOk (s :: ss) (l :: ls) (o :: os)

/-- Index vector inside the logical shape: 0 ≤ idx[k] < shape[k], axis by axis. -/
inductive InBounds : List DimType → List DimType → Prop where
  | nil : InBounds [] []
  | cons {i s : DimType} {is ss : List DimType} :
      0 ≤ i → i < s → InBounds is ss → InBounds (i :: is) (s :: ss)

/-- Mixed-radix digit bounds: 0 ≤ offs[k] + idx[k] < ldims[k], axis by axis. -/
inductive DigitsOk : List DimType → List DimType → List DimType → Prop where
  | nil : DigitsOk [] [] []
  | cons {o l i : DimType} {os ls is : List DimType} :
      0 ≤ o + i → o + i < l → DigitsOk os ls is →
      DigitsOk (o :: os) (l :: ls) (i :: is)

theorem LayoutOk.ldims_length {ss ls os : List DimType} (h : LayoutOk ss ls os) :
    ls.length = ss.length := by
  induction h with
  | nil => rfl
  | cons _ _ _ _ ih => simpa using ih

theorem LayoutOk.offs_length {ss ls os : List DimType} (h : LayoutOk ss ls os) :
    os.length = ss.length := by
  induction h with
  | nil => rfl
  | cons _ _ _ _ ih => simpa using ih

theorem InBounds.length_eq {is ss : List DimType} (h : InBounds is ss) :
    is.length = ss.length := by
  induction h with
  | nil => rfl
  | cons _ _ _ ih => simpa using ih

theorem DigitsOk.prod_pos {os ls is : List DimType} (h : DigitsOk os ls is) :
    0 < ls.prod := by
  induction h with
  | nil => simp
  | cons h0 hlt _ ih =>
    simp only [List.prod_cons]
    exact mul_pos (lt_of_le_of_lt h0 hlt) ih

theorem digitsOk_of_layout_inBounds {ss ls os idx : List DimType}
    (hlay : LayoutOk ss ls os) (hin : InBounds idx ss) : DigitsOk os ls idx := by
  induction hlay generalizing idx with
  | nil =>
    cases hin
    exact DigitsOk.nil
  | cons ho hs hsl _ ih =>
    cases hin with
    | cons hi0 his hrest =>
      exact DigitsOk.cons (by linarith) (by linarith) (ih hrest)

theorem offsetFormula_nonneg {os ls is : List DimType} (h : DigitsOk os ls is) :
    0 ≤ offsetFormula os ls is := by
  induction h with
  | nil => simp [offsetFormula]
  | cons h0 hlt ht ih =>
    simp only [offsetFormula]
    exact add_nonneg (mul_nonneg h0 (le_of_lt ht.prod_pos)) ih

theorem offsetFormula_lt {os ls is : List DimType} (h : DigitsOk os ls is) :
    offsetFormula os ls is < ls.prod := by
  induction h with
  | nil => simp [offsetFormula]
  | cons h0 hlt ht ih =>
    rename_i o l i os0 ls0 is0
    simp only [offsetFormula, List.prod_cons]
    have hP := ht.prod_pos
    have h1 : (o + i) * ls0.prod + offsetFormula os0 ls0 is0 <
        (o + i) * ls0.prod + ls0.prod := by linarith
    have h2 : ((o + i) + 1) * ls0.prod ≤ l * ls0.prod :=
      mul_le_mul_of_nonneg_right (Int.add_one_le_iff.mpr hlt) (le_of_lt hP)
    have h3 : ((o + i) + 1) * ls0.prod = (o + i) * ls0.prod + ls0.prod := by ring
    linarith

/-- Helper: uniqueness of the leading digit in a mixed-radix representation. -/
theorem mixed_digit_unique {d d' r r' P : Int} (hP : 0 < P)
    (hr : 0 ≤ r) (hrP : r < P) (hr' : 0 ≤ r') (hrP' : r' < P)
    (heq : d * P + r = d' * P + r') : d = d' ∧ r = r' := by
  have e1 : (r + d * P) / P = d := by
    rw [Int.add_mul_ediv_right _ _ (ne_of_gt hP), Int.ediv_eq_zero_of_lt hr hrP]
    simp
  have e2 : (r' + d' * P) / P = d' := by
    rw [Int.add_mul_ediv_right _ _ (ne_of_gt hP), Int.ediv_eq_zero_of_lt hr' hrP']
    simp
  have h1 : d = d' := by
    rw [← e1, ← e2]
    congr 1
    linarith
  refine ⟨h1, ?_⟩
  subst h1
  linarith

theorem offsetFormula_inj {os ls idx idx' : List DimType}
    (h : DigitsOk os ls idx) (h' : DigitsOk os ls idx')
    (heq : offsetFormula os ls idx = offsetFormula os ls idx') : idx = idx' := by
  induction h generalizing idx' with
  | nil =>
    cases h'
    rfl
  | @cons o l i os0 ls0 is0 h0 hlt ht ih =>
    cases h' with
    | @cons _ _ i' _ _ is0' h0' hlt' ht' =>
      simp only [offsetFormula] at heq
      have hd := mixed_digit_unique ht.prod_pos (offsetFormula_nonneg ht)
        (offsetFormula_lt ht) (offsetFormula_nonneg ht') (offsetFormula_lt ht') heq
      have hi : i = i' := by
        have h := hd.1
        linarith
      rw [hi, ih ht' hd.2]

/-- C2: for a validly constructed tensor (per-axis constructor invariants, 1 to
4 dims) and index vectors within the shape, Tensor::offset lies in the
half-open interval from 0 to the product of ldims, and the map from index
vectors to offsets is injective. -/
theorem c2_offset_injective_in_range (t : Tensor) (idx idx' : List DimType)
    (hlay : LayoutOk t.shape t.ldims t.offs)
    (h1 : 1 ≤ t.shape.length) (h4 : t.shape.length ≤ 4)
    (hin : InBounds idx t.shape) (hin' : InBounds idx' t.shape) :
    (0 ≤ t.offsetIdx idx ∧ t.offsetIdx idx < t.ldims.prod) ∧
      (t.offsetIdx idx = t.offsetIdx idx' → idx = idx') := by
  have hls := hlay.ldims_length
  have hos := hlay.offs_length
  have hd : DigitsOk t.offs t.ldims idx := digitsOk_of_layout_inBounds hlay hin
  have hd' : DigitsOk t.offs t.ldims idx' := digitsOk_of_layout_inBounds hlay hin'
  have hb := offsetIdx_eq_offsetFormula t idx hls hos hin.length_eq h1 h4
  have hb' := offsetIdx_eq_offsetFormula t idx' hls hos hin'.length_eq h1 h4
  constructor
  · rw [hb]
    exact ⟨offsetFormula_nonneg hd, offsetFormula_lt hd⟩
  · intro he
    refine offsetFormula_inj hd hd' ?_
    rw [← hb, ← hb', he]

/-- Witness for C2 at a concrete 2-dimensional tensor and two indices. -/
theorem c2_offset_injective_in_range_witness :
    (let t : Tensor := ⟨[2, 3], [4, 5], [1, 2], [1, 1]⟩
     LayoutOk t.shape t.ldims t.offs ∧ 1 ≤ t.shape.length ∧ t.shape.length ≤ 4 ∧
     InBounds [1, 2] t.shape ∧ InBounds [0, 1] t.shape ∧
     ((0 ≤ t.offsetIdx [1, 2] ∧ t.offsetIdx [1, 2] < t.ldims.prod) ∧
       (t.offsetIdx [1, 2] = t.offsetIdx [0, 1] → ([1, 2] : List DimType) = [0, 1]))) := by
  refine ⟨?_, by decide, by decide, ?_, ?_, ?_⟩
  · exact LayoutOk.cons (by decide) (by decide) (by decide)
      (LayoutOk.cons (by decide) (by decide) (by decide) LayoutOk.nil)
  · exact InBounds.cons (by decide) (by decide)
      (InBounds.cons (by decide) (by decide) InBounds.nil)
  · exact InBounds.cons (by decide) (by decide)
      (InBounds.cons (by decide) (by decide) InBounds.nil)
  · exact c2_offset_injective_in_range _ _ _
      (LayoutOk.cons (by decide) (by decide) (by decide)
        (LayoutOk.cons (by decide) (by decide) (by decide) LayoutOk.nil))
      (by decide) (by decide)
      (InBounds.cons (by decide) (by decide)
        (InBounds.cons (by decide) (by decide) InBounds.nil))
      (InBounds.cons (by decide) (by decide)
        (InBounds.cons (by decide) (by decide) InBounds.nil))

/-- Modelled from the spec: math::lcm is not among the sources; the least
common multiple of two (positive) pad units. -/
def mlcm (a b : DimType) : DimType := (Int.lcm a b : Nat)

/-- Modelled from the spec: math::pad is not among the sources.  Spec section
4.1 defines pad(x, unit) = ceil(x/unit)·unit, the least multiple of unit that
is at least x; for positive unit this is ((x + unit - 1) / unit) · unit. -/
def mpad (x u : DimType) : DimType := ((x + u - 1) / u) * u

/-- Translation of Tensor::update_pads (tensor.cc): the given pad vector is
right-aligned against the axes (the first ndims - len(pads_) entries of the
temporary vector are 1), each pad becomes the lcm of the old pad and the new
unit, and each ldim is rounded up to a multiple of the new pad. -/
def Tensor.update_pads (t : Tensor) (pads_ : List DimType) : Tensor :=
  let ndims := t.ldims.length
  let tmp := List.replicate (ndims - pads_.length) 1 ++ pads_
  { t with
    pads := (List.range ndims).map fun i => mlcm (t.pads.getD i 0) (tmp.getD i 0),
    ldims := (List.range ndims).map fun i =>
      mpad (t.ldims.getD i 0) (mlcm (t.pads.getD i 0) (tmp.getD i 0)) }

theorem getD_range_map (f : Nat → DimType) {n k : Nat} (hk : k < n) :
    ((List.range n).map f).getD k 0 = f k := by
  rw [List.getD_eq_getElem?_getD, List.getElem?_map, List.getElem?_range hk]
  rfl

theorem getD_mem_of_lt {l : List DimType} {k : Nat} (hk : k < l.length) :
    l.getD k 0 ∈ l := by
  rw [List.getD_eq_getElem?_getD, List.getElem?_eq_getElem hk]
  exact List.getElem_mem hk

theorem dvd_mlcm_left {a b : DimType} : a ∣ mlcm a b := Int.dvd_lcm_left

theorem dvd_mlcm_right {a b : DimType} : b ∣ mlcm a b := Int.dvd_lcm_right

theorem mlcm_pos {a b : DimType} (ha : 0 < a) (hb : 0 < b) : 0 < mlcm a b := by
  have h := Nat.pos_of_ne_zero (Nat.lcm_ne_zero
    (Int.natAbs_ne_zero.mpr (ne_of_gt ha)) (Int.natAbs_ne_zero.mpr (ne_of_gt hb)))
  unfold mlcm Int.lcm
  exact_mod_cast h

theorem mlcm_one_right {a : DimType} (ha : 0 ≤ a) : mlcm a 1 = a := by
  unfold mlcm Int.lcm
  rw [Int.natAbs_one, Nat.lcm_one_right, Int.natAbs_of_nonneg ha]

theorem mlcm_mlcm_right (a b : DimType) : mlcm (mlcm a b) b = mlcm a b := by
  unfold mlcm Int.lcm
  rw [Int.natAbs_ofNat]
  norm_cast
  exact Nat.dvd_antisymm (Nat.lcm_dvd dvd_rfl (Nat.dvd_lcm_right _ _))
    (Nat.dvd_lcm_left _ _)

theorem mpad_ge (x : DimType) {u : DimType} (hu : 0 < u) : x ≤ mpad x u := by
  have h3 := Int.ediv_add_emod (x + u - 1) u
  have h2 := Int.emod_lt_of_pos (x + u - 1) hu
  have h1 := Int.emod_nonneg (x + u - 1) (ne_of_gt hu)
  unfold mpad
  nlinarith

theorem dvd_mpad (x u : DimType) : u ∣ mpad x u := Dvd.intro_left _ rfl

theorem mpad_eq_self {x u : DimType} (hu : 0 < u) (hdvd : u ∣ x) : mpad x u = x := by
  obtain ⟨m, rfl⟩ := hdvd
  unfold mpad
  have h1 : u * m + u - 1 = (u - 1) + u * m := by ring
  rw [h1, Int.add_mul_ediv_left _ m (ne_of_gt hu),
    Int.ediv_eq_zero_of_lt (by linarith) (by linarith)]
  ring

/-- Helper: the right-aligned temporary pad vector of update_pads. -/
def alignPads (n : Nat) (p : List DimType) : List DimType :=
  List.replicate (n - p.length) 1 ++ p

theorem alignPads_length_ge {n : Nat} {p : List DimType} :
    n ≤ (alignPads n p).length := by
  simp [alignPads]
  omega

theorem alignPads_getD_left {n k : Nat} {p : List DimType}
    (hk : k < n - p.length) : (alignPads n p).getD k 0 = 1 := by
  unfold alignPads
  rw [List.getD_eq_getElem?_getD, List.getElem?_append, List.getElem?_replicate]
  simp [hk]

theorem alignPads_getD_right {n k : Nat} {p : List DimType} :
    (alignPads n p).getD (n - p.length + k) 0 = p.getD k 0 := by
  unfold alignPads
  rw [List.getD_eq_getElem?_getD, List.getElem?_append_right (by simp),
    List.getD_eq_getElem?_getD]
  simp

theorem alignPads_getD_pos {n k : Nat} {p : List DimType}
    (hp : ∀ x ∈ p, 0 < x) (hk : k < n) : 0 < (alignPads n p).getD k 0 := by
  have hmem : (alignPads n p).getD k 0 ∈ alignPads n p :=
    getD_mem_of_lt (lt_of_lt_of_le hk alignPads_length_ge)
  rcases List.mem_append.mp hmem with h | h
  · rw [List.eq_of_mem_replicate h]
    exact one_pos
  · exact hp _ h

theorem update_pads_pads_getD (t : Tensor) (p : List DimType) {k : Nat}
    (hk : k < t.ldims.length) :
    (t.update_pads p).pads.getD k 0 =
      mlcm (t.pads.getD k 0) ((alignPads t.ldims.length p).getD k 0) := by
  unfold Tensor.update_pads alignPads
  exact getD_range_map _ hk

theorem update_pads_ldims_getD (t : Tensor) (p : List DimType) {k : Nat}
    (hk : k < t.ldims.length) :
    (t.update_pads p).ldims.getD k 0 =
      mpad (t.ldims.getD k 0)
        (mlcm (t.pads.getD k 0) ((alignPads t.ldims.length p).getD k 0)) := by
  unfold Tensor.update_pads alignPads
  exact getD_range_map _ hk

theorem update_pads_ldims_length (t : Tensor) (p : List DimType) :
    (t.update_pads p).ldims.length = t.ldims.length := by
  simp [Tensor.update_pads]

theorem update_pads_pads_length (t : Tensor) (p : List DimType) :
    (t.update_pads p).pads.length = t.ldims.length := by
  simp [Tensor.update_pads]

/-- C3: for a tensor with positive pads (a constructor invariant) and a
positive pad vector p covering every axis, update_pads(p) makes each new
pads[k] a common multiple of the old pads[k] and of p[k], and never shrinks
pads or ldims. -/
theorem c3_update_pads_monotone (t : Tensor) (p : List DimType)
    (hp : ∀ x ∈ p, 0 < x) (hpads : ∀ x ∈ t.pads, 0 < x)
    (hplen : p.length = t.ldims.length)
    (hpadlen : t.pads.length = t.ldims.length) :
    ∀ k, k < t.ldims.length →
      t.pads.getD k 0 ∣ (t.update_pads p).pads.getD k 0 ∧
      p.getD k 0 ∣ (t.update_pads p).pads.getD k 0 ∧
      t.pads.getD k 0 ≤ (t.update_pads p).pads.getD k 0 ∧
      t.ldims.getD k 0 ≤ (t.update_pads p).ldims.getD k 0 := by
  intro k hk
  have h0 : t.ldims.length - p.length = 0 := by omega
  have htmp : (alignPads t.ldims.length p).getD k 0 = p.getD k 0 := by
    have h := alignPads_getD_right (n := t.ldims.length) (k := k) (p := p)
    rwa [h0, Nat.zero_add] at h
  have hpk : 0 < p.getD k 0 := hp _ (getD_mem_of_lt (by omega))
  have hpadk : 0 < t.pads.getD k 0 := hpads _ (getD_mem_of_lt (by omega))
  rw [update_pads_pads_getD t p hk, update_pads_ldims_getD t p hk, htmp]
  refine ⟨dvd_mlcm_left, dvd_mlcm_right, ?_, ?_⟩
  · exact Int.le_of_dvd (mlcm_pos hpadk hpk) dvd_mlcm_left
  · exact mpad_ge _ (mlcm_pos hpadk hpk)

/-- Witness for C3 at a concrete tensor and full-length pad vector. -/
theorem c3_update_pads_monotone_witness :
    (let t : Tensor := ⟨[2, 3], [4, 6], [0, 0], [2, 3]⟩
     (∀ x ∈ ([4, 2] : List DimType), 0 < x) ∧ (∀ x ∈ t.pads, 0 < x) ∧
     ([4, 2] : List DimType).length = t.ldims.length ∧
     t.pads.length = t.ldims.length ∧
     ∀ k, k < t.ldims.length →
       t.pads.getD k 0 ∣ (t.update_pads [4, 2]).pads.getD k 0 ∧
       ([4, 2] : List DimType).getD k 0 ∣ (t.update_pads [4, 2]).pads.getD k 0 ∧
       t.pads.getD k 0 ≤ (t.update_pads [4, 2]).pads.getD k 0 ∧
       t.ldims.getD k 0 ≤ (t.update_pads [4, 2]).ldims.getD k 0) := by
  refine ⟨by decide, by decide, by decide, by decide, ?_⟩
  exact c3_update_pads_monotone _ _ (by decide) (by decide) (by decide) (by decide)

theorem getD_eq_getElem_of_lt {l : List DimType} {k : Nat} (hk : k < l.length) :
    l.getD k 0 = l[k] := by
  rw [List.getD_eq_getElem?_getD, List.getElem?_eq_getElem hk]
  rfl

/-- C9: Tensor::update_pads is idempotent: for a tensor with positive pads (a
constructor invariant) and a positive pad vector p, a second call of
update_pads(p) leaves the tensor (in particular pads and ldims) exactly as it
was after the first call. -/
theorem c9_update_pads_idempotent (t : Tensor) (p : List DimType)
    (hp : ∀ x ∈ p, 0 < x) (hpads : ∀ x ∈ t.pads, 0 < x)
    (hpadlen : t.pads.length = t.ldims.length) :
    (t.update_pads p).update_pads p = t.update_pads p := by
  have hlen1 : (t.update_pads p).ldims.length = t.ldims.length :=
    update_pads_ldims_length t p
  have key : ∀ k, k < t.ldims.length →
      ((t.update_pads p).update_pads p).pads.getD k 0 =
        (t.update_pads p).pads.getD k 0 ∧
      ((t.update_pads p).update_pads p).ldims.getD k 0 =
        (t.update_pads p).ldims.getD k 0 := by
    intro k hk
    have hk1 : k < (t.update_pads p).ldims.length := by rw [hlen1]; exact hk
    have ha : 0 < t.pads.getD k 0 := hpads _ (getD_mem_of_lt (by omega))
    have hb : 0 < (alignPads t.ldims.length p).getD k 0 := alignPads_getD_pos hp hk
    have e1 := update_pads_pads_getD (t.update_pads p) p hk1
    have e2 := update_pads_ldims_getD (t.update_pads p) p hk1
    rw [hlen1] at e1 e2
    rw [e1, e2, update_pads_pads_getD t p hk, update_pads_ldims_getD t p hk,
      mlcm_mlcm_right, mpad_eq_self (mlcm_pos ha hb) (dvd_mpad _ _)]
    exact ⟨rfl, rfl⟩
  apply Tensor.ext
  · rfl
  · apply List.ext_getElem
    · simp [update_pads_ldims_length]
    · intro i h1 h2
      have hi : i < t.ldims.length := by
        rwa [update_pads_ldims_length, update_pads_ldims_length] at h1
      rw [← getD_eq_getElem_of_lt h1, ← getD_eq_getElem_of_lt h2]
      exact (key i hi).2
  · rfl
  · apply List.ext_getElem
    · simp [update_pads_pads_length, update_pads_ldims_length]
    · intro i h1 h2
      have hi : i < t.ldims.length := by
        rwa [update_pads_pads_length, update_pads_ldims_length] at h1
      rw [← getD_eq_getElem_of_lt h1, ← getD_eq_getElem_of_lt h2]
      exact (key i hi).1

/-- Witness for C9 at a concrete tensor and short pad vector. -/
theorem c9_update_pads_idempotent_witness :
    (let t : Tensor := ⟨[2, 3], [4, 6], [0, 0], [2, 3]⟩
     (∀ x ∈ ([4] : List DimType), 0 < x) ∧ (∀ x ∈ t.pads, 0 < x) ∧
     t.pads.length = t.ldims.length ∧
     (t.update_pads [4]).update_pads [4] = t.update_pads [4]) := by
  refine ⟨by decide, by decide, by decide, ?_⟩
  exact c9_update_pads_idempotent _ _ (by decide) (by decide) (by decide)

/-- C10: when update_pads(p) is called with fewer entries than the number of
dimensions, p is right-aligned to the trailing axes: the missing leading axes
are treated as pad 1, so their pads and ldims are unchanged (using the
constructor invariants that pads are positive and divide ldims), and p[k]
applies to axis ndims - len(p) + k. -/
theorem c10_update_pads_right_alignment (t : Tensor) (p : List DimType)
    (hp : ∀ x ∈ p, 0 < x) (hpads : ∀ x ∈ t.pads, 0 < x)
    (hpadlen : t.pads.length = t.ldims.length)
    (hdvd : ∀ k, k < t.ldims.length → t.pads.getD k 0 ∣ t.ldims.getD k 0)
    (hshort : p.length < t.ldims.length) :
    (∀ k, k < t.ldims.length - p.length →
      (t.update_pads p).pads.getD k 0 = t.pads.getD k 0 ∧
      (t.update_pads p).ldims.getD k 0 = t.ldims.getD k 0) ∧
    (∀ k, k < p.length →
      (t.update_pads p).pads.getD (t.ldims.length - p.length + k) 0 =
        mlcm (t.pads.getD (t.ldims.length - p.length + k) 0) (p.getD k 0) ∧
      (t.update_pads p).ldims.getD (t.ldims.length - p.length + k) 0 =
        mpad (t.ldims.getD (t.ldims.length - p.length + k) 0)
          (mlcm (t.pads.getD (t.ldims.length - p.length + k) 0) (p.getD k 0))) := by
  constructor
  · intro k hk
    have hkn : k < t.ldims.length := by omega
    have ha : 0 < t.pads.getD k 0 := hpads _ (getD_mem_of_lt (by omega))
    rw [update_pads_pads_getD t p hkn, update_pads_ldims_getD t p hkn,
      alignPads_getD_left hk, mlcm_one_right (le_of_lt ha),
      mpad_eq_self ha (hdvd k hkn)]
    exact ⟨rfl, rfl⟩
  · intro k hk
    have hkn : t.ldims.length - p.length + k < t.ldims.length := by omega
    rw [update_pads_pads_getD t p hkn, update_pads_ldims_getD t p hkn,
      alignPads_getD_right]
    exact ⟨rfl, rfl⟩

/-- Witness for C10 at a concrete tensor and a shorter pad vector. -/
theorem c10_update_pads_right_alignment_witness :
    (let t : Tensor := ⟨[2, 3], [4, 6], [0, 0], [2, 3]⟩
     (∀ x ∈ ([4] : List DimType), 0 < x) ∧ (∀ x ∈ t.pads, 0 < x) ∧
     t.pads.length = t.ldims.length ∧
     (∀ k, k < t.ldims.length → t.pads.getD k 0 ∣ t.ldims.getD k 0) ∧
     ([4] : List DimType).length < t.ldims.length ∧
     ((∀ k, k < t.ldims.length - 1 →
        (t.update_pads [4]).pads.getD k 0 = t.pads.getD k 0 ∧
        (t.update_pads [4]).ldims.getD k 0 = t.ldims.getD k 0) ∧
      (∀ k, k < 1 →
        (t.update_pads [4]).pads.getD (t.ldims.length - 1 + k) 0 =
          mlcm (t.pads.getD (t.ldims.length - 1 + k) 0)
            (([4] : List DimType).getD k 0) ∧
        (t.update_pads [4]).ldims.getD (t.ldims.length - 1 + k) 0 =
          mpad (t.ldims.getD (t.ldims.length - 1 + k) 0)
            (mlcm (t.pads.getD (t.ldims.length - 1 + k) 0)
              (([4] : List DimType).getD k 0))))) := by
  refine ⟨by decide, by decide, by decide, by decide, by decide, ?_⟩
  exact c10_update_pads_right_alignment ⟨[2, 3], [4, 6], [0, 0], [2, 3]⟩ [4]
    (by decide) (by decide) (by decide) (by decide) (by decide)

theorem isEmpty_false_of_ne_nil {l : List DimType} (h : l ≠ []) :
    l.isEmpty = false := by
  cases l with
  | nil => exact absurd rfl h
  | cons a l => rfl

/-- C4: with all four dims vectors explicitly given, the constructor succeeds
exactly when the section-3 invariants hold: nonzero element count, equal
numbers of dimensions, every ldims[i] a multiple of pads[i], and
offs[i] + shape[i] within ldims[i]; any violation yields ShapeInvalid. -/
theorem c4_constructor_validates (s l o p : List DimType)
    (hs : s ≠ []) (hl : l ≠ []) (ho : o ≠ []) (hp : p ≠ []) :
    (mkTensor s l o p).isOk = true ↔
      (s.prod ≠ 0 ∧ l.length = s.length ∧ o.length = s.length ∧
       p.length = s.length ∧
       (∀ i, i < s.length → l.getD i 0 % p.getD i 0 = 0) ∧
       (∀ i, i < s.length → o.getD i 0 + s.getD i 0 ≤ l.getD i 0)) := by
  have es : effShape s = s := by
    simp [effShape, dimsIsNoDim, isEmpty_false_of_ne_nil hs]
  have el : effLdims s l = l := by
    simp [effLdims, dimsIsNoDim, isEmpty_false_of_ne_nil hl]
  have eo : effOffs s o = o := by
    simp [effOffs, dimsIsNoDim, isEmpty_false_of_ne_nil ho]
  have ep : effPads s p = p := by
    simp [effPads, dimsIsNoDim, isEmpty_false_of_ne_nil hp]
  have hsz : dimsSize s = s.prod := by
    simp [dimsSize, isEmpty_false_of_ne_nil hs]
  simp only [mkTensor, es, el, eo, ep, hsz, dimsIsNoDim,
    isEmpty_false_of_ne_nil hl, isEmpty_false_of_ne_nil ho,
    isEmpty_false_of_ne_nil hp, Bool.false_eq_true, not_false_iff, true_and]
  split_ifs with h1 h2 h3 h4 h5 h6 <;>
    simp_all [Except.isOk, Except.toBool, checkMod, checkBounds,
      List.all_eq_true, List.mem_range]

/-- Witness for C4 at a concrete valid layout. -/
theorem c4_constructor_validates_witness :
    (([2, 3] : List DimType) ≠ [] ∧ ([4, 6] : List DimType) ≠ [] ∧
     ([1, 2] : List DimType) ≠ [] ∧ ([2, 3] : List DimType) ≠ [] ∧
     ((mkTensor [2, 3] [4, 6] [1, 2] [2, 3]).isOk = true ↔
       (([2, 3] : List DimType).prod ≠ 0 ∧
        ([4, 6] : List DimType).length = ([2, 3] : List DimType).length ∧
        ([1, 2] : List DimType).length = ([2, 3] : List DimType).length ∧
        ([2, 3] : List DimType).length = ([2, 3] : List DimType).length ∧
        (∀ i, i < ([2, 3] : List DimType).length →
          ([4, 6] : List DimType).getD i 0 % ([2, 3] : List DimType).getD i 0 = 0) ∧
        (∀ i, i < ([2, 3] : List DimType).length →
          ([1, 2] : List DimType).getD i 0 + ([2, 3] : List DimType).getD i 0 ≤
            ([4, 6] : List DimType).getD i 0)))) := by
  refine ⟨by decide, by decide, by decide, by decide, ?_⟩
  exact c4_constructor_validates [2, 3] [4, 6] [1, 2] [2, 3]
    (by decide) (by decide) (by decide) (by decide)

/-- End-to-end construction of a tensor from a user shape vector: the shape
vector goes through Dims construction first, the other three arguments are the
no-dim defaults, as in the Model::tensor call path. -/
def tensorFromShapeVec (v : List DimType) : Except ArkError Tensor :=
  match mkDims v with
  | .error e => .error e
  | .ok s => mkTensor s [] [] []

/-- C5: for every shape vector with a component at most 0, or with more than 4
dimensions, tensor construction fails with ShapeInvalid (negative components
and oversize vectors at Dims construction, zero components at the tensor
constructor element-count check). -/
theorem c5_invalid_shape_vec_rejected (v : List DimType)
    (h : (∃ x ∈ v, x ≤ 0) ∨ 4 < v.length) :
    tensorFromShapeVec v = .error .ShapeInvalid := by
  unfold tensorFromShapeVec mkDims
  by_cases hbad : (4 < v.length || v.any (fun x => decide (x < 0))) = true
  · rw [if_pos hbad]
  · rw [if_neg hbad]
    simp only [Bool.or_eq_true, decide_eq_true_eq, List.any_eq_true,
      not_or, not_exists, not_and, not_lt] at hbad
    obtain ⟨hlen, hnn⟩ := hbad
    rcases h with ⟨x, hx, hx0⟩ | hlen'
    · have hx0' : x = 0 := le_antisymm hx0 (hnn x hx)
      have hv : v ≠ [] := by
        intro hnil
        rw [hnil] at hx
        exact absurd hx (List.not_mem_nil x)
      have hprod : v.prod = 0 := List.prod_eq_zero (hx0' ▸ hx)
      simp [mkTensor, dimsSize, isEmpty_false_of_ne_nil hv, hprod]
    · exact absurd hlen (not_le.mpr hlen')

/-- Witness for C5 at a concrete shape vector containing a zero component. -/
theorem c5_invalid_shape_vec_rejected_witness :
    ((∃ x ∈ ([2, 0, 3] : List DimType), x ≤ 0) ∨ 4 < ([2, 0, 3] : List DimType).length) ∧
    tensorFromShapeVec [2, 0, 3] = .error .ShapeInvalid := by
  refine ⟨by decide, ?_⟩
  exact c5_invalid_shape_vec_rejected [2, 0, 3] (by decide)

/-- Helper: a successfully constructed tensor records the effective shape (the
given one, or {1} for the sentinel), and the given shape had nonzero size. -/
theorem mkTensor_ok_shape {s l o p : List DimType} {t : Tensor}
    (h : mkTensor s l o p = .ok t) :
    dimsSize s ≠ 0 ∧ t.shape = effShape s := by
  unfold mkTensor at h
  split_ifs at h with h1 h2 h3 h4 h5 h6 <;> cases h <;> exact ⟨h1, rfl⟩

/-- C8: every tensor returned by the constructor has at least one dimension
and at least one element: the no-dim sentinel shape is silently replaced by
the shape {1}, and a shape with element count 0 is rejected.  Shape vectors
have nonnegative components by Dims construction. -/
theorem c8_constructed_tensor_nonempty (s l o p : List DimType) (t : Tensor)
    (hs : ∀ x ∈ s, 0 ≤ x) :
    (mkTensor s l o p = .ok t →
      1 ≤ t.ndims ∧ 1 ≤ t.size ∧ (dimsIsNoDim s = true → t.shape = [1])) ∧
    (s ≠ [] → s.prod = 0 → mkTensor s l o p = .error .ShapeInvalid) := by
  constructor
  · intro h
    obtain ⟨hsz, hsh⟩ := mkTensor_ok_shape h
    by_cases hno : dimsIsNoDim s = true
    · rw [effShape, if_pos hno] at hsh
      refine ⟨?_, ?_, fun _ => hsh⟩
      · simp [Tensor.ndims, hsh]
      · simp [Tensor.size, dimsSize, hsh]
    · rw [effShape, if_neg hno] at hsh
      have hs_ne : s ≠ [] := by
        intro hnil
        exact hno (by simp [dimsIsNoDim, hnil])
      have hprod : s.prod ≠ 0 := by
        intro h0
        exact hsz (by simp [dimsSize, isEmpty_false_of_ne_nil hs_ne, h0])
      have hpos : ∀ x ∈ s, 1 ≤ x := by
        intro x hx
        rcases lt_or_eq_of_le (hs x hx) with hlt | heq
        · exact Int.lt_iff_add_one_le.mp hlt
        · exact absurd (List.prod_eq_zero (heq ▸ hx)) hprod
      refine ⟨?_, ?_, fun hno' => absurd hno' hno⟩
      · rw [Tensor.ndims, hsh]
        exact List.length_pos.mpr hs_ne
      · rw [Tensor.size, hsh, dimsSize, isEmpty_false_of_ne_nil hs_ne]
        exact List.one_le_prod hpos
  · intro hne hprod
    simp [mkTensor, dimsSize, isEmpty_false_of_ne_nil hne, hprod]

/-- Witness for C8: the sentinel shape yields the one-element tensor, and a
zero-product shape is rejected. -/
theorem c8_constructed_tensor_nonempty_witness :
    (∀ x ∈ ([] : List DimType), 0 ≤ x) ∧
    ((mkTensor [] [] [] [] = .ok (⟨[1], [1], [0], [1]⟩ : Tensor) →
      1 ≤ (⟨[1], [1], [0], [1]⟩ : Tensor).ndims ∧
      1 ≤ (⟨[1], [1], [0], [1]⟩ : Tensor).size ∧
      (dimsIsNoDim [] = true → (⟨[1], [1], [0], [1]⟩ : Tensor).shape = [1])) ∧
     (([] : List DimType) ≠ [] → ([] : List DimType).prod = 0 →
      mkTensor [] [] [] [] = .error .ShapeInvalid)) := by
  refine ⟨by decide, ?_⟩
  exact c8_constructed_tensor_nonempty [] [] [] [] ⟨[1], [1], [0], [1]⟩ (by decide)

/-- An op of the model graph for scheduling purposes: the ids of the tensors
it reads and writes (spec section 3; the other op attributes play no role in
depth counting). -/
structure Op where
  inputs : List Nat
  outputs : List Nat
deriving DecidableEq, Repr

/-- Op b depends on op a when some output of a is an input of b (spec section
3: edge A→B exists iff any output of A is an input of B). -/
def dependsOn (b a : Op) : Bool := a.outputs.any fun x => b.inputs.contains x

/-- Modelled from the spec (section 4.3): depth assignment is longest-path
layering; ops are scanned in declaration order and each op's depth is one
more than the maximal depth among its producers (0 when it has none). -/
def depthsAux : List (Op × Nat) → List Op → List (Op × Nat)
  | acc, [] => acc
  | acc, op :: rest =>
      depthsAux
        (acc ++ [(op, acc.foldl
          (fun m pr => if dependsOn op pr.1 then max m (pr.2 + 1) else m) 0)])
        rest

/-- The longest-path depth of every op, in declaration order. -/
def opDepths (ops : List Op) : List Nat := (depthsAux [] ops).map Prod.snd

/-- Modelled from the spec: the number of depth layers of the op DAG.  With
longest-path layering the depth values of a nonempty graph are exactly the
interval from 0 to the maximal depth, so the layer count is the maximal depth
plus one. -/
def numDepthLayers (ops : List Op) : Nat :=
  if ops.isEmpty then 0 else (opDepths ops).foldl max 0 + 1

/-- Modelled from the spec and header documentation: the body of
SimpleScheduler::create_sched_opseq is not among the sources; per the header
comment on get_num_depths (the num of the depth is equal to the num of the
op) every op yields one SchedOpSeq of its own. -/
def createSchedOpseqs (ops : List Op) : List (List Op) := ops.map fun op => [op]

/-- SimpleScheduler::get_num_depths (sched.h): the size of sched_opseqs. -/
def simpleGetNumDepths (ops : List Op) : Nat := (createSchedOpseqs ops).length

theorem depthsAux_length (ops : List Op) : ∀ acc : List (Op × Nat),
    (depthsAux acc ops).length = acc.length + ops.length := by
  induction ops with
  | nil => intro acc; simp [depthsAux]
  | cons op rest ih =>
    intro acc
    rw [depthsAux, ih]
    simp
    omega

theorem foldl_depth_le (op : Op) {n : Nat} : ∀ (acc : List (Op × Nat)) (m : Nat),
    m ≤ n → (∀ q ∈ acc, q.2 < n) →
    acc.foldl (fun m pr => if dependsOn op pr.1 then max m (pr.2 + 1) else m) m ≤ n := by
  intro acc
  induction acc with
  | nil => intro m hm _; simpa using hm
  | cons a rest ih =>
    intro m hm hacc
    rw [List.foldl_cons]
    refine ih _ ?_ fun q hq => hacc q (List.mem_cons_of_mem a hq)
    by_cases hd : dependsOn op a.1
    · rw [if_pos hd]
      exact max_le hm (hacc a (List.mem_cons_self a rest))
    · rwa [if_neg hd]

theorem depthsAux_depth_lt (ops : List Op) : ∀ acc : List (Op × Nat),
    (∀ q ∈ acc, q.2 < acc.length) →
    ∀ q ∈ depthsAux acc ops, q.2 < (depthsAux acc ops).length := by
  induction ops with
  | nil => intro acc hacc; simpa [depthsAux] using hacc
  | cons op rest ih =>
    intro acc hacc
    rw [depthsAux]
    refine ih _ ?_
    intro q hq
    rcases List.mem_append.mp hq with h | h
    · have := hacc q h
      simp only [List.length_append, List.length_cons, List.length_nil]
      omega
    · have hq2 : q.2 ≤ acc.length := by
        have hmem := List.mem_singleton.mp h
        rw [hmem]
        exact foldl_depth_le op acc 0 (Nat.zero_le _) hacc
      simp only [List.length_append, List.length_cons, List.length_nil]
      omega

theorem foldl_max_le {B : Nat} : ∀ (l : List Nat) (m : Nat), m ≤ B →
    (∀ x ∈ l, x ≤ B) → l.foldl max m ≤ B := by
  intro l
  induction l with
  | nil => intro m hm _; simpa using hm
  | cons a rest ih =>
    intro m hm hl
    rw [List.foldl_cons]
    exact ih _ (max_le hm (hl a (List.mem_cons_self a rest)))
      fun x hx => hl x (List.mem_cons_of_mem a hx)

/-- C6 counterexample: two independent ops.  The simple scheduler reports two
depths (one op sequence per op), but the longest-path layering of the op DAG
has a single depth layer, so get_num_depths is not the number of depth
layers. -/
theorem c6_counterexample :
    simpleGetNumDepths [⟨[], [0]⟩, ⟨[], [1]⟩] ≠
      numDepthLayers [⟨[], [0]⟩, ⟨[], [1]⟩] := by decide

/-- C6 as amended: after scheduling, SimpleScheduler::get_num_depths returns
the number of scheduled op sequences, which is the number of ops (one
sequence per op, as the header documents); the number of longest-path depth
layers of the op DAG never exceeds it. -/
theorem c6_num_depths_counts_opseqs (ops : List Op) :
    simpleGetNumDepths ops = ops.length ∧ numDepthLayers ops ≤ ops.length := by
  constructor
  · simp [simpleGetNumDepths, createSchedOpseqs]
  · unfold numDepthLayers
    by_cases hne : ops.isEmpty
    · simp [hne]
    · rw [if_neg hne]
      have hlen1 : 1 ≤ ops.length := by
        cases ops with
        | nil => exact absurd rfl hne
        | cons a l => simp
      have hbound : ∀ x ∈ opDepths ops, x ≤ ops.length - 1 := by
        intro x hx
        obtain ⟨q, hq, hq2⟩ := List.mem_map.mp hx
        have h1 := depthsAux_depth_lt ops [] (by simp) q hq
        rw [depthsAux_length] at h1
        simp only [List.length_nil, Nat.zero_add] at h1
        omega
      have := foldl_max_le (opDepths ops) 0 (Nat.zero_le _) hbound
      omega

/-- Modelled from the spec: the transpose kernel is outside the core
(KernelCatalog); spec P9 and the transpose test define its semantics: the
output element at the permuted index equals the input element at the original
index, the permuted index being axis[perm[k]] at position k.  A tensor is
abstracted as a map from 4-dimensional index vectors to element values. -/
def transposeT {α : Type} (p : Equiv.Perm (Fin 4)) (T : (Fin 4 → DimType) → α) :
    (Fin 4 → DimType) → α :=
  fun j => T fun k => j (p.symm k)

/-- The permutation (0,2,1,3) of the fp32 transpose test: axes 1 and 2
swapped. -/
def permTest : Equiv.Perm (Fin 4) := Equiv.swap 1 2

/-- The fp32 transpose test shape (3, 2048, 96, 128). -/
def shapeTest (k : Fin 4) : DimType := [3, 2048, 96, 128].getD k.val 0

/-- C7: for the fp32 transpose test configuration, shape (3,2048,96,128) and
permutation (0,2,1,3), every element of the output at the permuted index
equals the corresponding input element, and applying transpose with the
inverse permutation restores the input tensor elementwise. -/
theorem c7_transpose_round_trip {α : Type} (T : (Fin 4 → DimType) → α)
    (idx : Fin 4 → DimType) (hb : ∀ k, 0 ≤ idx k ∧ idx k < shapeTest k) :
    transposeT permTest T (fun k => idx (permTest k)) = T idx ∧
    transposeT permTest⁻¹ (transposeT permTest T) idx = T idx := by
  constructor
  · show T (fun k => idx (permTest (permTest.symm k))) = T idx
    congr 1
    funext k
    rw [Equiv.apply_symm_apply]
  · show T (fun m => idx (permTest⁻¹.symm (permTest.symm m))) = T idx
    congr 1
    funext m
    simp [Equiv.Perm.inv_def]

/-- Witness for C7 at a concrete tensor map and index. -/
theorem c7_transpose_round_trip_witness :
    (let T := fun v : Fin 4 → DimType => v 0 + 2 * v 1 + 3 * v 2 + 5 * v 3
     let idx := fun k : Fin 4 => (k.val : DimType)
     (∀ k, 0 ≤ idx k ∧ idx k < shapeTest k) ∧
     (transposeT permTest T (fun k => idx (permTest k)) = T idx ∧
      transposeT permTest⁻¹ (transposeT permTest T) idx = T idx)) := by
  refine ⟨?_, ?_⟩
  · decide
  · exact c7_transpose_round_trip
      (fun v : Fin 4 → DimType => v 0 + 2 * v 1 + 3 * v 2 + 5 * v 3)
      (fun k : Fin 4 => (k.val : DimType)) (by decide)

end Ark
